import Mathlib

/-!
Verification of the policy-conformance runners (OTLP policy evaluation
harness).  The definitions below are shallow embeddings of the Go and Zig
runner sources: the protobuf-based Go field accessor and transformers
(`runners/go/eval.go`), the pdata-based variants (ID conversion helpers and
the tracestate merge), the proportional sampling helper
(`find_trace_ids.go`), the stats writer and the per-signal batch processing
(`runners/go/main.go`).  Byte strings are modelled as `List Nat` (one entry
per byte; for string data we use the code-point sequence, which agrees with
UTF-8 bytes on ASCII and preserves emptiness and ordering in general).
-/

namespace PolicyConformance

/-- Byte-string view of a Go `string` / `[]byte(s)` conversion. -/
def strB (s : String) : List Nat := s.data.map Char.toNat

/-- Inverse of `strB`, used where the Go code converts bytes back with
`string(val)`. -/
def bytesToStr (bs : List Nat) : String := String.mk (bs.map Char.ofNat)

/-- A generic attribute entry: OTLP `KeyValue` with a nil-able `AnyValue`. -/
structure KeyValue (α : Type) where
  key : String
  value : Option α

/-- OTLP `AnyValue` oneof (`common.v1.AnyValue`).  The `doubleV` payload is
kept opaque (raw bits) since no accessor ever reads through it. -/
inductive AnyValue where
  | str (s : String)
  | intV (i : Int)
  | boolV (b : Bool)
  | doubleV (bits : Nat)
  | bytesV (bs : List Nat)
  | arrayV (vs : List AnyValue)
  | kvlist (kvs : List (KeyValue AnyValue))

/-- Attribute entries as used by the runners. -/
abbrev KV := KeyValue AnyValue

/-- OTLP log record (the fields touched by the log accessor/transformers in
`runners/go/eval.go`). -/
structure LogRecord where
  body : Option AnyValue
  severityText : String
  traceIdB : List Nat
  spanIdB : List Nat
  eventName : String
  attributes : List KV

/-- OTLP resource. -/
structure Resource where
  attributes : List KV

/-- OTLP instrumentation scope. -/
structure Scope where
  name : String
  version : String
  attributes : List KV

/-- Log evaluation context (`LogContext` in `runners/go/eval.go`): the record
plus its parent resource/scope containers and schema URLs. -/
structure LogContext where
  record : LogRecord
  resource : Option Resource
  scope : Option Scope
  resourceSchemaURL : String
  scopeSchemaURL : String

/-- Fixed log fields understood by the accessor (`policy.LogField*`);
`otherField` stands for any further enum value hitting the `default` arm. -/
inductive LogField where
  | body | severityText | traceId | spanId | eventName
  | resourceSchemaURL | scopeSchemaURL | otherField
deriving DecidableEq

/-- A log field reference (`policy.LogFieldRef`): either a fixed field or an
attribute path on the record, resource or scope. -/
inductive LogFieldRef where
  | field (f : LogField)
  | recordAttr (path : List String)
  | resourceAttr (path : List String)
  | scopeAttr (path : List String)

/-- Go `anyValueBytes`: the UTF-8 bytes of a string-valued `AnyValue`;
nil for a missing value, a non-string value, or an empty string. -/
def anyValueBytes : Option AnyValue → Option (List Nat)
  | none => none
  | some (.str s) => if s = "" then none else some (strB s)
  | some _ => none

/-- Go `resourceAttrs`: attribute slice of a nil-able resource. -/
def resourceAttrs : Option Resource → List KV
  | none => []
  | some r => r.attributes

/-- Go `scopeAttrs`: attribute slice of a nil-able scope. -/
def scopeAttrs : Option Scope → List KV
  | none => []
  | some s => s.attributes

/-- Go `findAttributePath`: walk a (possibly nested) attribute path; at the
last key read the value's string bytes, descending only through `kvlist`
values. -/
def findAttributePath : List KV → List String → Option (List Nat)
  | _, [] => none
  | attrs, k :: rest =>
    match attrs.find? (fun kv => kv.key == k) with
    | none => none
    | some kv =>
      match rest with
      | [] => anyValueBytes kv.value
      | _ :: _ =>
        match kv.value with
        | some (.kvlist kvs) => findAttributePath kvs rest
        | _ => none

/-- Go `OTelLogMatcher`: the log field accessor's string read. -/
def OTelLogMatcher (ctx : LogContext) (ref : LogFieldRef) : Option (List Nat) :=
  match ref with
  | .field f =>
    match f with
    | .body => anyValueBytes ctx.record.body
    | .severityText =>
      if ctx.record.severityText = "" then none else some (strB ctx.record.severityText)
    | .traceId =>
      if ctx.record.traceIdB = [] then none else some ctx.record.traceIdB
    | .spanId =>
      if ctx.record.spanIdB = [] then none else some ctx.record.spanIdB
    | .eventName =>
      if ctx.record.eventName = "" then none else some (strB ctx.record.eventName)
    | .resourceSchemaURL =>
      if ctx.resourceSchemaURL = "" then none else some (strB ctx.resourceSchemaURL)
    | .scopeSchemaURL =>
      if ctx.scopeSchemaURL = "" then none else some (strB ctx.scopeSchemaURL)
    | .otherField => none
  | .recordAttr path => findAttributePath ctx.record.attributes path
  | .resourceAttr path => findAttributePath (resourceAttrs ctx.resource) path
  | .scopeAttr path => findAttributePath (scopeAttrs ctx.scope) path

/-- Go `attrPath`: first component of the reference's attribute path, or the
empty string if there is none (fixed-field refs have an empty path). -/
def attrPath (ref : LogFieldRef) : String :=
  match ref with
  | .recordAttr (k :: _) => k
  | .resourceAttr (k :: _) => k
  | .scopeAttr (k :: _) => k
  | _ => ""

/-- Go `otelLogAttrs`: the attribute slice targeted by a reference, nil when
the reference is a fixed field or the parent container is nil. -/
def otelLogAttrs (ctx : LogContext) (ref : LogFieldRef) : Option (List KV) :=
  match ref with
  | .recordAttr _ => some ctx.record.attributes
  | .resourceAttr _ => ctx.resource.map Resource.attributes
  | .scopeAttr _ => ctx.scope.map Scope.attributes
  | .field _ => none

/-- Write an updated attribute slice back to the container the reference
selected (the Go code mutates through the returned pointer). -/
def withLogAttrs (ctx : LogContext) (ref : LogFieldRef) (attrs : List KV) : LogContext :=
  match ref with
  | .recordAttr _ => { ctx with record := { ctx.record with attributes := attrs } }
  | .resourceAttr _ => { ctx with resource := ctx.resource.map (fun r => { r with attributes := attrs }) }
  | .scopeAttr _ => { ctx with scope := ctx.scope.map (fun s => { s with attributes := attrs }) }
  | .field _ => ctx

/-- Go `findAttributeIndex`: index of the first entry with the given key
(`none` models the Go sentinel `-1`). -/
def findAttributeIndex (attrs : List KV) (key : String) : Option Nat :=
  attrs.findIdx? (fun kv => kv.key == key)

/-- Assign a new value at an index, leaving the key in place
(Go `(*attrs)[idx].Value = ...`). -/
def setValueAt : List KV → Nat → Option AnyValue → List KV
  | [], _, _ => []
  | kv :: rest, 0, v => { kv with value := v } :: rest
  | kv :: rest, n + 1, v => kv :: setValueAt rest n v

/-- Go `removeAttribute`, body after the nil check: remove the first entry
with the key; the flag reports whether it was found. -/
def removeAttributeList (attrs : List KV) (key : String) : Bool × List KV :=
  if key = "" then (false, attrs)
  else
    match findAttributeIndex attrs key with
    | none => (false, attrs)
    | some idx => (true, attrs.eraseIdx idx)

/-- Go `removeAttribute` including the nil-slice guard. -/
def removeAttribute : Option (List KV) → String → Bool × Option (List KV)
  | none, _ => (false, none)
  | some attrs, key =>
    let r := removeAttributeList attrs key
    (r.1, some r.2)

/-- Go `setAttribute`, body after the nil check: overwrite the value when the
key exists (unless `upsert` is false), else append a new string entry. -/
def setAttributeList (attrs : List KV) (key value : String) (upsert : Bool) : Bool × List KV :=
  if key = "" then (false, attrs)
  else
    match findAttributeIndex attrs key with
    | some idx =>
      if !upsert then (true, attrs)
      else (true, setValueAt attrs idx (some (.str value)))
    | none => (true, attrs ++ [{ key := key, value := some (.str value) }])

/-- Go `setAttribute` including the nil-slice guard. -/
def setAttribute : Option (List KV) → String → String → Bool → Bool × Option (List KV)
  | none, _, _, _ => (false, none)
  | some attrs, key, value, upsert =>
    let r := setAttributeList attrs key value upsert
    (r.1, some r.2)

/-- Go `otelLogRename`, attribute part: read the source value's bytes, block
when `upsert` is false and the target key exists, otherwise remove the source
entry and set the target to the source's string bytes (empty string when the
value was not a non-empty string). -/
def renameAttrs (attrs : List KV) (key toKey : String) (upsert : Bool) : Bool × List KV :=
  if key = "" then (false, attrs)
  else
    match findAttributeIndex attrs key with
    | none => (false, attrs)
    | some idx =>
      let kv := (attrs.get? idx).getD { key := "", value := none }
      let val := anyValueBytes kv.value
      if !upsert && (findAttributeIndex attrs toKey).isSome then
        (true, attrs)
      else
        let attrs1 := attrs.eraseIdx idx
        let newVal := match val with | some bs => bytesToStr bs | none => ""
        (true, (setAttributeList attrs1 toKey newVal true).2)

/-- Go `otelLogRename`: renaming a fixed field is unsupported and returns
false; otherwise the rename runs on the targeted attribute slice.  (With a
nil attribute slice and a non-empty key the Go code would fault; that arm is
modelled as a no-op and is not exercised by any theorem below.) -/
def otelLogRename (ctx : LogContext) (ref : LogFieldRef) (toKey : String) (upsert : Bool) :
    Bool × LogContext :=
  match ref with
  | .field _ => (false, ctx)
  | _ =>
    let key := attrPath ref
    if key = "" then (false, ctx)
    else
      match otelLogAttrs ctx ref with
      | none => (false, ctx)
      | some attrs =>
        let r := renameAttrs attrs key toKey upsert
        (r.1, withLogAttrs ctx ref r.2)

/-- Go `otelLogRemove`: clear a fixed field (hit iff it was set) or remove an
attribute entry. -/
def otelLogRemove (ctx : LogContext) (ref : LogFieldRef) : Bool × LogContext :=
  match ref with
  | .field .body =>
    (ctx.record.body.isSome, { ctx with record := { ctx.record with body := none } })
  | .field .severityText =>
    (!(ctx.record.severityText == ""), { ctx with record := { ctx.record with severityText := "" } })
  | .field .traceId =>
    (!(ctx.record.traceIdB == []), { ctx with record := { ctx.record with traceIdB := [] } })
  | .field .spanId =>
    (!(ctx.record.spanIdB == []), { ctx with record := { ctx.record with spanIdB := [] } })
  | .field .eventName =>
    (!(ctx.record.eventName == ""), { ctx with record := { ctx.record with eventName := "" } })
  | .field _ => (false, ctx)
  | _ =>
    let r := removeAttribute (otelLogAttrs ctx ref) (attrPath ref)
    match r.2 with
    | some attrs => (r.1, withLogAttrs ctx ref attrs)
    | none => (r.1, ctx)

/-- Go `otelLogRedact`: replace a fixed field's value with the replacement
string (IDs get the replacement's raw bytes), or overwrite an existing
attribute entry's value. -/
def otelLogRedact (ctx : LogContext) (ref : LogFieldRef) (replacement : String) :
    Bool × LogContext :=
  match ref with
  | .field .body =>
    (ctx.record.body.isSome,
      { ctx with record := { ctx.record with body := some (.str replacement) } })
  | .field .severityText =>
    (!(ctx.record.severityText == ""),
      { ctx with record := { ctx.record with severityText := replacement } })
  | .field .traceId =>
    (!(ctx.record.traceIdB == []),
      { ctx with record := { ctx.record with traceIdB := strB replacement } })
  | .field .spanId =>
    (!(ctx.record.spanIdB == []),
      { ctx with record := { ctx.record with spanIdB := strB replacement } })
  | .field .eventName =>
    (!(ctx.record.eventName == ""),
      { ctx with record := { ctx.record with eventName := replacement } })
  | .field _ => (false, ctx)
  | _ =>
    match otelLogAttrs ctx ref with
    | none => (false, ctx)
    | some attrs =>
      let key := attrPath ref
      if key = "" then (false, ctx)
      else
        match findAttributeIndex attrs key with
        | none => (false, ctx)
        | some idx =>
          (true, withLogAttrs ctx ref (setValueAt attrs idx (some (.str replacement))))

/-- Go `otelLogAdd`: set a fixed field unless it is already set and `upsert`
is false (always reporting true for known fields), or set an attribute. -/
def otelLogAdd (ctx : LogContext) (ref : LogFieldRef) (value : String) (upsert : Bool) :
    Bool × LogContext :=
  match ref with
  | .field .body =>
    if !upsert && ctx.record.body.isSome then (true, ctx)
    else (true, { ctx with record := { ctx.record with body := some (.str value) } })
  | .field .severityText =>
    if !upsert && !(ctx.record.severityText == "") then (true, ctx)
    else (true, { ctx with record := { ctx.record with severityText := value } })
  | .field .traceId =>
    if !upsert && !(ctx.record.traceIdB == []) then (true, ctx)
    else (true, { ctx with record := { ctx.record with traceIdB := strB value } })
  | .field .spanId =>
    if !upsert && !(ctx.record.spanIdB == []) then (true, ctx)
    else (true, { ctx with record := { ctx.record with spanIdB := strB value } })
  | .field .eventName =>
    if !upsert && !(ctx.record.eventName == "") then (true, ctx)
    else (true, { ctx with record := { ctx.record with eventName := value } })
  | .field _ => (false, ctx)
  | _ =>
    let r := setAttribute (otelLogAttrs ctx ref) (attrPath ref) value upsert
    match r.2 with
    | some attrs => (r.1, withLogAttrs ctx ref attrs)
    | none => (r.1, ctx)

/-- Value of a single hexadecimal digit, as in Go `encoding/hex`. -/
def hexDigit (c : Char) : Option Nat :=
  if '0' ≤ c ∧ c ≤ '9' then some (c.toNat - 48)
  else if 'a' ≤ c ∧ c ≤ 'f' then some (c.toNat - 87)
  else if 'A' ≤ c ∧ c ≤ 'F' then some (c.toNat - 55)
  else none

/-- Go `hex.DecodeString` on a character list: two hex digits per byte; odd
length or an invalid digit is an error. -/
def hexDecodeChars : List Char → Option (List Nat)
  | [] => some []
  | [_] => none
  | c1 :: c2 :: rest =>
    match hexDigit c1, hexDigit c2, hexDecodeChars rest with
    | some h, some l, some bs => some ((16 * h + l) :: bs)
    | _, _, _ => none

/-- Go `hex.DecodeString`. -/
def hexDecode (s : String) : Option (List Nat) := hexDecodeChars s.data

/-- Go `traceIDFromString` (pdata runner): hex-decode the string; unless it
decodes to exactly 16 bytes the zero trace ID is returned. -/
def traceIDFromString (s : String) : List Nat :=
  match hexDecode s with
  | some b => if b.length = 16 then b else List.replicate 16 0
  | none => List.replicate 16 0

/-- Go `spanIDFromString` (pdata runner): as `traceIDFromString` with 8
bytes. -/
def spanIDFromString (s : String) : List Nat :=
  match hexDecode s with
  | some b => if b.length = 8 then b else List.replicate 8 0
  | none => List.replicate 8 0

/-! Proportional sampler (`find_trace_ids.go`, `otelShouldKeep`).  The Go
code computes the rejection threshold in IEEE-754 double precision; `fl`
models rounding a rational to the nearest double (round half to even,
53-bit significand; the values involved are far from overflow and
underflow, so exponent limits are irrelevant). -/

/-- Floor of the base-2 logarithm of `num / den` (both positive), computed by
fuelled scaling; the fuel far exceeds any exponent reachable here. -/
def log2Rat : Nat → Nat → Nat → Int
  | 0, _, _ => 0
  | fuel + 1, num, den =>
    if num < den then log2Rat fuel (2 * num) den - 1
    else if 2 * den ≤ num then log2Rat fuel num (2 * den) + 1
    else 0

/-- Round `n / d` to the nearest integer, ties to even. -/
def roundNearestEven (n d : Nat) : Nat :=
  let q := n / d
  let r := n % d
  if 2 * r < d then q
  else if d < 2 * r then q + 1
  else if q % 2 = 0 then q else q + 1

/-- Round the nonnegative fraction `num / den` (with `den ≠ 0`) to the
nearest IEEE-754 double, returned as a fraction whose denominator is a power
of two: scale into the 53-bit significand range and round half to even. -/
def flFrac (num den : Nat) : Nat × Nat :=
  if num = 0 then (0, 1)
  else
    let e : Int := log2Rat 4200 num den - 52
    if 0 ≤ e then (roundNearestEven num (den * 2 ^ e.toNat) * 2 ^ e.toNat, 1)
    else (roundNearestEven (num * 2 ^ (-e).toNat) den, 2 ^ (-e).toNat)

/-- Go `maxThreshold = uint64(1) << 56`. -/
def maxThreshold : Nat := 2 ^ 56

/-- The threshold the Go code computes for `0 < percentage < 100`, on the
fraction `pnum / pden`:
`uint64((1.0 - percentage/100.0) * float64(maxThreshold))` — the division,
subtraction and multiplication each round to double precision
(`float64(maxThreshold)` is exact), and the final uint64 conversion
truncates toward zero. -/
def goThresholdFrac (pnum pden : Nat) : Nat :=
  let t1 := flFrac pnum (pden * 100)
  let t2 := flFrac (t1.2 - t1.1) t1.2
  let t3 := flFrac (t2.1 * maxThreshold) t2.2
  t3.1 / t3.2

/-- Go `otelShouldKeep`: keep everything at `percentage ≥ 100`, nothing at
`percentage ≤ 0`; otherwise form the 56-bit value from bytes 9..15 of the
trace ID (`r = (r << 8) | b` over a uint64) and keep iff it reaches the
threshold. -/
def otelShouldKeep (traceIDBytes : List Nat) (percentage : ℚ) : Bool :=
  if 100 ≤ percentage then true
  else if percentage ≤ 0 then false
  else
    let r := ((traceIDBytes.drop 9).take 7).foldl (fun r b => ((r <<< 8) ||| b) % 2 ^ 64) 0
    decide (goThresholdFrac percentage.num.toNat percentage.den ≤ r)

/-- The claim's `R`: the big-endian integer formed from the low 7 bytes
(bytes 9 through 15) of the trace ID. -/
def otelR (traceIDBytes : List Nat) : Nat :=
  ((traceIDBytes.drop 9).take 7).foldl (fun r b => r * 256 + b) 0

/-- Concrete 16-byte trace ID whose low 7 bytes encode 48278588005411712. -/
def cexTraceID : List Nat :=
  [0, 0, 0, 0, 0, 0, 0, 0, 0, 171, 133, 30, 184, 81, 235, 128]

/-! Tracestate merge (`mergeOTTracestate` in the pdata Go runner).  Strings
are handled as character lists so the splitting and joining are fully
transparent. -/

/-- Go `strings.Split` on a single separator character: splitting the empty
string yields one empty piece. -/
def splitOnChar (sep : Char) : List Char → List (List Char)
  | [] => [[]]
  | c :: rest =>
    let r := splitOnChar sep rest
    if c = sep then [] :: r
    else
      match r with
      | [] => [[c]]
      | h :: t => (c :: h) :: t

/-- Go `strings.TrimSpace`: drop whitespace from both ends. -/
def trimChars (l : List Char) : List Char :=
  ((l.dropWhile Char.isWhitespace).reverse.dropWhile Char.isWhitespace).reverse

/-- Join pieces with a separator character (Go `strings.Join`). -/
def joinWith (sep : Char) : List (List Char) → List Char
  | [] => []
  | [x] => x
  | x :: y :: ys => x ++ sep :: joinWith sep (y :: ys)

/-- The characters of the vendor marker `ot=`. -/
def otMark : List Char := ['o', 't', '=']

/-- Sub-key name of an `ot` part: everything before the first colon, the
whole part when there is none (Go `strings.Index(subkv, ":")`). -/
def keyOfPart (p : List Char) : List Char := p.takeWhile (fun c => c ≠ ':')

/-- One step of the vendor scan in Go `mergeOTTracestate`: an `ot=` vendor
contributes its trimmed, non-empty sub-parts whose key differs from the new
sub-key; any other non-empty vendor is collected verbatim. -/
def mergeStep (subKey : List Char) (acc : List (List Char) × List (List Char))
    (vendorRaw : List Char) : List (List Char) × List (List Char) :=
  let vendor := trimChars vendorRaw
  if vendor = [] then acc
  else if otMark.isPrefixOf vendor then
    let otValue := vendor.drop 3
    let parts := (splitOnChar ';' otValue).foldl
      (fun ps partRaw =>
        let part := trimChars partRaw
        if part = [] then ps
        else if keyOfPart part = subKey then ps
        else ps ++ [part])
      acc.1
    (parts, acc.2)
  else (acc.1, acc.2 ++ [vendor])

/-- Go `mergeOTTracestate` (pdata runner): collect the retained `ot`
sub-parts and the other vendors, then emit `ot=` with the retained sub-parts
followed by the new sub-key/value, then the other vendors. -/
def mergeOTTracestate (tracestate subkv : List Char) : List Char :=
  let subKey := keyOfPart subkv
  let acc :=
    if tracestate = [] then ([], [])
    else (splitOnChar ',' tracestate).foldl (mergeStep subKey) ([], [])
  let result := otMark ++ joinWith ';' (acc.1 ++ [subkv])
  if acc.2 = [] then result
  else result ++ [','] ++ joinWith ',' acc.2

/-- The trimmed, non-empty vendor entries of a tracestate, in order. -/
def tracestateVendors (ts : List Char) : List (List Char) :=
  ((splitOnChar ',' ts).map trimChars).filter (fun v => !v.isEmpty)

/-- Whether a vendor entry is the `ot=` vendor. -/
def isOtVendor (v : List Char) : Bool := otMark.isPrefixOf v

/-- The trimmed, non-empty sub-parts of all `ot=` vendors, in order. -/
def otSubParts (ts : List Char) : List (List Char) :=
  ((tracestateVendors ts).filter isOtVendor).flatMap
    (fun v => ((splitOnChar ';' (v.drop 3)).map trimChars).filter (fun p => !p.isEmpty))

/-- The non-`ot` vendor entries of a tracestate, in order. -/
def nonOtVendors (ts : List Char) : List (List Char) :=
  (tracestateVendors ts).filter (fun v => !isOtVendor v)

/-- The characters of the threshold sub-key marker `th:`. -/
def thMark : List Char := ['t', 'h', ':']

/-! Stats output (`writeStats` in `runners/go/main.go`). -/

/-- One per-policy counter snapshot (`PolicyHit` with the registry's
`MatchHits` / `MatchMisses`). -/
structure PolicyHit where
  policyID : String
  hits : Nat
  misses : Nat

/-- Byte-wise comparison used by the Go sort: Lean's `String` order is the
lexicographic code-point order, which coincides with byte-wise order on the
UTF-8 encodings. -/
def policyIdLe (a b : PolicyHit) : Bool := decide (a.policyID ≤ b.policyID)

/-- Entries reported by Go `writeStats`: drop all-zero counters, then sort
ascending by policy ID (`sort.Slice`). -/
def statsPolicies (stats : List PolicyHit) : List PolicyHit :=
  (stats.filter (fun s => 0 < s.hits || 0 < s.misses)).mergeSort policyIdLe

/-- JSON rendering of one entry (`json.Marshal` of `PolicyHit`; `misses`
carries `omitempty`). -/
def renderPolicyHit (p : PolicyHit) : String :=
  "\x7b\"policy_id\":\"" ++ p.policyID ++ "\",\"hits\":" ++ toString p.hits ++
    (if p.misses = 0 then "" else ",\"misses\":" ++ toString p.misses) ++ "\x7d"

/-- Go `writeStats`: the serialized stats object. -/
def writeStats (stats : List PolicyHit) : String :=
  "\x7b\"policies\":[" ++ String.intercalate "," ((statsPolicies stats).map renderPolicyHit) ++ "]\x7d"

/-! Batch processing (`processLogs` in `runners/go/main.go`): evaluate every
record, drop the ones the engine rejects, then prune scope containers left
without records and resource containers left without scopes.  The engine
decision is a parameter, as in the source, where it is the external
`policy.EvaluateLog` call over the record's context. -/

/-- OTLP `ScopeLogs` container. -/
structure ScopeLogs where
  scope : Option Scope
  logRecords : List LogRecord

/-- OTLP `ResourceLogs` container. -/
structure ResourceLogs where
  resource : Option Resource
  scopeLogs : List ScopeLogs

/-- Go `processLogs`, with `dropRec` standing for
`policy.EvaluateLog(eng, ctx, ...) == policy.ResultDrop` on the record's
context. -/
def processLogs (dropRec : ResourceLogs → ScopeLogs → LogRecord → Bool)
    (data : List ResourceLogs) : List ResourceLogs :=
  let evaluated := data.map (fun (rl : ResourceLogs) =>
    { rl with scopeLogs := rl.scopeLogs.map (fun (sl : ScopeLogs) =>
        { sl with logRecords := sl.logRecords.filter (fun rec => !dropRec rl sl rec) }) })
  let scopesPruned := evaluated.map (fun (rl : ResourceLogs) =>
    { rl with scopeLogs := rl.scopeLogs.filter (fun sl => !sl.logRecords.isEmpty) })
  scopesPruned.filter (fun rl => !rl.scopeLogs.isEmpty)

/-! Matcher existence semantics.  The matcher evaluator itself lives in the
external policy engine libraries (`policy-go` / `policy_zig`), which are
dependencies, not part of this repository's sources; it is modelled from the
specification here. -/

/-- Modelled from the spec: the raw state of one referenced field — absent,
or present with a (possibly empty) string value.  The accessor's
`get_string` reports a present-but-empty value as `None`; the matcher layer
additionally consults this raw state. -/
structure FieldState where
  raw : Option String

/-- Modelled from the spec: the accessor's `get_string` read of the field —
`none` when absent or present-but-empty. -/
def getStringRead (f : FieldState) : Option String :=
  match f.raw with
  | none => none
  | some s => if s = "" then none else some s

/-- Modelled from the spec: matcher predicates relevant to existence
semantics — `exists(bool)` and `exact(value)`. -/
inductive MatchPred where
  | existsCheck (want : Bool)
  | exactCheck (v : String)

/-- Modelled from the spec: a matcher is a predicate plus a `negate` flag. -/
structure Matcher where
  pred : MatchPred
  negate : Bool

/-- Modelled from the spec: `exists(true)` succeeds iff the field is present
with a non-empty value; `exists(false)` matches an absent field but not an
empty one; `exact` consults the raw read, so `exact("")` matches a
present-but-empty string. -/
def evalPred (p : MatchPred) (f : FieldState) : Bool :=
  match p with
  | .existsCheck true => (getStringRead f).isSome
  | .existsCheck false => !f.raw.isSome
  | .exactCheck v =>
    match f.raw with
    | some s => s == v
    | none => false

/-- Modelled from the spec: `negate` flips the final boolean result of the
predicate, including `exists`. -/
def evalMatcher (m : Matcher) (f : FieldState) : Bool :=
  let r := evalPred m.pred f
  if m.negate then !r else r

/-! Concrete fixtures used by witnesses. -/

/-- A concrete log record. -/
def exRecord : LogRecord :=
  { body := some (.str "hello")
    severityText := "INFO"
    traceIdB := [1, 2]
    spanIdB := []
    eventName := ""
    attributes := [{ key := "a", value := some (.str "x") },
                   { key := "b", value := some (.str "y") }] }

/-- A concrete log context. -/
def exCtx : LogContext :=
  { record := exRecord
    resource := none
    scope := none
    resourceSchemaURL := ""
    scopeSchemaURL := "" }

/-- The attribute list of the rename scenario: `{a:"x", b:"y"}`. -/
def exAttrs : List KV :=
  [{ key := "a", value := some (.str "x") }, { key := "b", value := some (.str "y") }]

/-- A concrete batch: one resource with two scopes, three records. -/
def exBatch : List ResourceLogs :=
  [{ resource := none
     scopeLogs :=
      [{ scope := none, logRecords := [exRecord, { exRecord with severityText := "DEBUG" }] },
       { scope := none, logRecords := [{ exRecord with severityText := "DEBUG" }] }] }]

/-- The batch decision used by the `processLogs` witness: drop `DEBUG`
records. -/
def exDrop (_ : ResourceLogs) (_ : ScopeLogs) (rec : LogRecord) : Bool :=
  rec.severityText == "DEBUG"

/-! Helper lemmas. -/

theorem strB_ne_nil {s : String} (h : s ≠ "") : strB s ≠ [] := by
  intro hc
  apply h
  have hd : s.data = [] := by
    have := List.map_eq_nil_iff.mp hc
    exact this
  cases s
  simp_all

theorem anyValueBytes_eq_some {v : Option AnyValue} {bs : List Nat}
    (h : anyValueBytes v = some bs) : ∃ s, v = some (.str s) ∧ s ≠ "" ∧ bs = strB s := by
  match v with
  | none => simp [anyValueBytes] at h
  | some (.str s) =>
    by_cases hs : s = ""
    · simp [anyValueBytes, hs] at h
    · refine ⟨s, rfl, hs, ?_⟩
      simp only [anyValueBytes, if_neg hs, Option.some.injEq] at h
      exact h.symm
  | some (.intV i) => simp [anyValueBytes] at h
  | some (.boolV b) => simp [anyValueBytes] at h
  | some (.doubleV d) => simp [anyValueBytes] at h
  | some (.bytesV b) => simp [anyValueBytes] at h
  | some (.arrayV a) => simp [anyValueBytes] at h
  | some (.kvlist l) => simp [anyValueBytes] at h

theorem anyValueBytes_ne_nil {v : Option AnyValue} {bs : List Nat}
    (h : anyValueBytes v = some bs) : bs ≠ [] := by
  obtain ⟨s, -, hs, rfl⟩ := anyValueBytes_eq_some h
  exact strB_ne_nil hs

theorem findAttributePath_ne_nil :
    ∀ (path : List String) (attrs : List KV) (bs : List Nat),
      findAttributePath attrs path = some bs → bs ≠ [] := by
  intro path
  induction path with
  | nil => intro attrs bs h; simp [findAttributePath] at h
  | cons k rest ih =>
    intro attrs bs h
    rw [findAttributePath] at h
    cases hfind : attrs.find? (fun kv => kv.key == k) with
    | none => simp only [hfind] at h; exact Option.noConfusion h
    | some kv =>
      simp only [hfind] at h
      cases rest with
      | nil => exact anyValueBytes_ne_nil h
      | cons r rs =>
        cases hv : kv.value with
        | none => simp only [hv] at h; exact Option.noConfusion h
        | some av =>
          cases av <;> simp only [hv] at h <;>
            first
            | exact Option.noConfusion h
            | exact ih _ _ h

/-- C1: the field accessor's string read is `none` whenever the field is
absent, the attribute path does not resolve, the value is not a string, or
the value is a present-but-empty string, and it never returns an empty byte
string: every `some` result of `OTelLogMatcher` (and of the underlying
`anyValueBytes` / `findAttributePath` reads) is non-empty, and `anyValueBytes`
yields a value only for a present, non-empty string. -/
theorem accessor_string_read_none_rules :
    (∀ (ctx : LogContext) (ref : LogFieldRef) (bs : List Nat),
        OTelLogMatcher ctx ref = some bs → bs ≠ []) ∧
    (∀ (v : Option AnyValue) (bs : List Nat),
        anyValueBytes v = some bs → ∃ s, v = some (.str s) ∧ s ≠ "" ∧ bs = strB s) ∧
    (∀ (attrs : List KV) (path : List String) (bs : List Nat),
        findAttributePath attrs path = some bs → bs ≠ []) := by
  refine ⟨?_, fun v bs h => anyValueBytes_eq_some h,
    fun attrs path bs h => findAttributePath_ne_nil path attrs bs h⟩
  intro ctx ref bs h
  cases ref with
  | field f =>
    cases f with
    | body => exact anyValueBytes_ne_nil h
    | severityText =>
      simp only [OTelLogMatcher] at h
      split at h
      · simp at h
      · next hne => cases h; exact strB_ne_nil hne
    | traceId =>
      simp only [OTelLogMatcher] at h
      split at h
      · simp at h
      · next hne => cases h; exact hne
    | spanId =>
      simp only [OTelLogMatcher] at h
      split at h
      · simp at h
      · next hne => cases h; exact hne
    | eventName =>
      simp only [OTelLogMatcher] at h
      split at h
      · simp at h
      · next hne => cases h; exact strB_ne_nil hne
    | resourceSchemaURL =>
      simp only [OTelLogMatcher] at h
      split at h
      · simp at h
      · next hne => cases h; exact strB_ne_nil hne
    | scopeSchemaURL =>
      simp only [OTelLogMatcher] at h
      split at h
      · simp at h
      · next hne => cases h; exact strB_ne_nil hne
    | otherField => simp [OTelLogMatcher] at h
  | recordAttr path => exact findAttributePath_ne_nil path _ bs h
  | resourceAttr path => exact findAttributePath_ne_nil path _ bs h
  | scopeAttr path => exact findAttributePath_ne_nil path _ bs h

/-- Witness for C1 at a concrete context: the severity text of `exCtx` reads
back as a non-empty byte string. -/
theorem accessor_string_read_none_rules_witness : strB "INFO" ≠ [] :=
  accessor_string_read_none_rules.1 exCtx (.field .severityText) (strB "INFO") (by decide)

/-- C9: a rename transform whose field reference is a fixed field performs no
mutation and returns false. -/
theorem rename_fixed_field_noop :
    ∀ (ctx : LogContext) (f : LogField) (toKey : String) (upsert : Bool),
      otelLogRename ctx (.field f) toKey upsert = (false, ctx) := by
  intro ctx f toKey upsert
  rfl

/-- C4: when the source and the target key are both present and `upsert` is
false, a rename leaves the attribute list completely unchanged — at the list
level and through the full log transformer on record attributes. -/
theorem rename_blocked_target_present (attrs : List KV) (a b : String)
    (ha : findAttributeIndex attrs a ≠ none) (hb : findAttributeIndex attrs b ≠ none) :
    (renameAttrs attrs a b false).2 = attrs ∧
    ∀ ctx : LogContext, ctx.record.attributes = attrs →
      (otelLogRename ctx (.recordAttr [a]) b false).2 = ctx := by
  have hlist : (renameAttrs attrs a b false).2 = attrs := by
    rw [renameAttrs]
    split
    · rfl
    · cases hidx : findAttributeIndex attrs a with
      | none => rfl
      | some idx =>
        simp only []
        rw [if_pos]
        simp only [Bool.not_false, Bool.true_and]
        exact Option.isSome_iff_ne_none.mpr hb
  refine ⟨hlist, ?_⟩
  intro ctx hctx
  have hdef : otelLogRename ctx (.recordAttr [a]) b false =
      if a = "" then (false, ctx)
      else ((renameAttrs ctx.record.attributes a b false).1,
            withLogAttrs ctx (.recordAttr [a]) (renameAttrs ctx.record.attributes a b false).2) :=
    rfl
  rw [hdef]
  by_cases hka : a = ""
  · rw [if_pos hka]
  · rw [if_neg hka]
    show withLogAttrs ctx (.recordAttr [a]) (renameAttrs ctx.record.attributes a b false).2 = ctx
    rw [hctx, hlist, ← hctx]
    rfl

/-- Witness for C4 at the spec's concrete scenario `{a:"x", b:"y"}`,
`rename a→b, upsert:false`. -/
theorem rename_blocked_target_present_witness :
    (renameAttrs exAttrs "a" "b" false).2 = exAttrs :=
  (rename_blocked_target_present exAttrs "a" "b" (by decide) (by decide)).1

/-- C3 counterexample: `setAttribute` on an empty attribute list reports
`true` although the key `a` did not exist before the operation, refuting
"the boolean result is true iff the targeted field existed before". -/
theorem set_hit_flag_counterexample :
    (setAttribute (some []) "a" "v" true).1 = true ∧ findAttributeIndex [] "a" = none := by
  constructor <;> rfl

/-- C3 amended: `remove` reports true iff the (non-empty) key existed;
`rename` reports true iff the (non-empty) source key existed; `set`/`add`
report true whenever the key is non-empty, regardless of prior existence. -/
theorem mutation_hit_flags :
    (∀ (attrs : List KV) (key : String),
        (removeAttributeList attrs key).1 = true ↔
          key ≠ "" ∧ findAttributeIndex attrs key ≠ none) ∧
    (∀ (attrs : List KV) (key v : String) (u : Bool),
        (setAttributeList attrs key v u).1 = true ↔ key ≠ "") ∧
    (∀ (attrs : List KV) (key toKey : String) (u : Bool),
        (renameAttrs attrs key toKey u).1 = true ↔
          key ≠ "" ∧ findAttributeIndex attrs key ≠ none) := by
  refine ⟨?_, ?_, ?_⟩
  · intro attrs key
    rw [removeAttributeList]
    split
    · next hk => simp [hk]
    · next hk =>
      cases hidx : findAttributeIndex attrs key with
      | none => simp [hk, hidx]
      | some idx => simp [hk, hidx]
  · intro attrs key v u
    rw [setAttributeList]
    split
    · next hk => simp [hk]
    · next hk =>
      cases hidx : findAttributeIndex attrs key with
      | none => simp [hk]
      | some idx =>
        simp only []
        split <;> simp [hk]
  · intro attrs key toKey u
    rw [renameAttrs]
    split
    · next hk => simp [hk]
    · next hk =>
      cases hidx : findAttributeIndex attrs key with
      | none => simp [hk, hidx]
      | some idx =>
        simp only []
        split <;> simp [hk, hidx]

/-- Witness for C3's amended characterization at a concrete list and key. -/
theorem mutation_hit_flags_witness :
    (removeAttributeList exAttrs "a").1 = true ↔
      "a" ≠ "" ∧ findAttributeIndex exAttrs "a" ≠ none :=
  mutation_hit_flags.1 exAttrs "a"

/-- C5 counterexample: the pdata runner's ID conversion hex-decodes and
length-validates the replacement instead of storing its bytes verbatim — a
valid 32-hex-character replacement is decoded to 16 bytes, and an invalid
one is replaced by the all-zero ID. -/
theorem id_replacement_hex_decode_counterexample :
    traceIDFromString "ffffffffffffffffffffffffffffffff" = List.replicate 16 255 ∧
    traceIDFromString "ffffffffffffffffffffffffffffffff" ≠
      strB "ffffffffffffffffffffffffffffffff" ∧
    traceIDFromString "xyz" = List.replicate 16 0 := by
  refine ⟨by decide, by decide, by decide⟩

/-- C5 amended: the protobuf-based runner stores the replacement's bytes
verbatim for `trace_id`/`span_id` redact (and add), while the pdata-based
runner hex-decodes the replacement and stores the decoded bytes only when
they are exactly 16 (trace) / 8 (span) bytes, otherwise an all-zero ID. -/
theorem id_replacement_storage :
    (∀ (ctx : LogContext) (repl : String),
        ((otelLogRedact ctx (.field .traceId) repl).2).record.traceIdB = strB repl ∧
        ((otelLogRedact ctx (.field .spanId) repl).2).record.spanIdB = strB repl ∧
        ((otelLogAdd ctx (.field .traceId) repl true).2).record.traceIdB = strB repl) ∧
    (∀ (s : String) (bs : List Nat),
        hexDecode s = some bs → bs.length = 16 → traceIDFromString s = bs) ∧
    (∀ (s : String) (bs : List Nat),
        hexDecode s = some bs → bs.length ≠ 16 → traceIDFromString s = List.replicate 16 0) ∧
    (∀ s : String, hexDecode s = none → traceIDFromString s = List.replicate 16 0) ∧
    (∀ (s : String) (bs : List Nat),
        hexDecode s = some bs → bs.length = 8 → spanIDFromString s = bs) := by
  refine ⟨?_, ?_, ?_, ?_, ?_⟩
  · intro ctx repl
    refine ⟨rfl, rfl, ?_⟩
    rw [otelLogAdd]
    simp
  · intro s bs h hl
    rw [traceIDFromString, h]
    simp [hl]
  · intro s bs h hl
    rw [traceIDFromString, h]
    simp [hl]
  · intro s h
    rw [traceIDFromString, h]
  · intro s bs h hl
    rw [spanIDFromString, h]
    simp [hl]

/-- Witness for C5's amended characterization: the all-zero hex string
decodes to the all-zero trace ID. -/
theorem id_replacement_storage_witness :
    traceIDFromString "00000000000000000000000000000000" = List.replicate 16 0 :=
  id_replacement_storage.2.1 "00000000000000000000000000000000" (List.replicate 16 0)
    (by decide) (by decide)

/-- C7: a matcher with predicate `exists:false` and `negate:true` evaluates
to true iff the referenced field is present on the record (negate flips the
final boolean result of the exists check). -/
theorem matcher_negated_absence_means_present :
    ∀ f : FieldState,
      evalMatcher { pred := .existsCheck false, negate := true } f = f.raw.isSome := by
  intro f
  simp [evalMatcher, evalPred]

/-- C8: the stats JSON lists its entries sorted ascending by `policy_id`
(byte-wise: Lean's `String` order is code-point lexicographic, which equals
byte-wise order on UTF-8), and with no entries to report it serializes as
exactly `{"policies":[]}`. -/
theorem stats_sorted_and_empty :
    (∀ stats : List PolicyHit,
        List.Pairwise (fun a b => policyIdLe a b = true) (statsPolicies stats)) ∧
    writeStats [] = "\x7b\"policies\":[]\x7d" ∧
    (∀ stats : List PolicyHit, (∀ s ∈ stats, s.hits = 0 ∧ s.misses = 0) →
        writeStats stats = "\x7b\"policies\":[]\x7d") := by
  have hempty : writeStats [] = "\x7b\"policies\":[]\x7d" := by
    rw [writeStats, statsPolicies, List.filter_nil, List.mergeSort_nil]
    rfl
  refine ⟨?_, hempty, ?_⟩
  · intro stats
    exact List.sorted_mergeSort
      (fun a b c hab hbc => by
        simp only [policyIdLe, decide_eq_true_eq] at hab hbc ⊢
        exact le_trans hab hbc)
      (fun a b => by
        simp only [policyIdLe, Bool.or_eq_true, decide_eq_true_eq]
        exact le_total a.policyID b.policyID)
      _
  · intro stats hz
    have hfil : stats.filter (fun s => 0 < s.hits || 0 < s.misses) = [] := by
      rw [List.filter_eq_nil_iff]
      intro s hs
      obtain ⟨h1, h2⟩ := hz s hs
      simp [h1, h2]
    rw [writeStats, statsPolicies, hfil, List.mergeSort_nil]
    rfl

/-- Witness for C8: a single all-zero counter entry is not reported and the
output is exactly the empty stats object. -/
theorem stats_sorted_and_empty_witness :
    writeStats [{ policyID := "p", hits := 0, misses := 0 }] = "\x7b\"policies\":[]\x7d" :=
  stats_sorted_and_empty.2.2 [{ policyID := "p", hits := 0, misses := 0 }] (by decide)

theorem filter_map_eq_filterMap {α β : Type} (f : α → β) (p : β → Bool) :
    ∀ l : List α,
      (l.map f).filter p = l.filterMap (fun x => if p (f x) then some (f x) else none) := by
  intro l
  induction l with
  | nil => rfl
  | cons x xs ih =>
    by_cases hx : p (f x)
    · simp [List.filter_cons, List.filterMap_cons, hx, ih]
    · simp [List.filter_cons, List.filterMap_cons, hx, ih]

/-- The pruning pipeline of `processLogs` written as one `filterMap`: a scope
survives with its kept records iff some record survives, and a resource
survives iff some scope does. -/
theorem processLogs_eq_filterMap (dropRec : ResourceLogs → ScopeLogs → LogRecord → Bool)
    (data : List ResourceLogs) :
    processLogs dropRec data = data.filterMap (fun rl =>
      let scopes := rl.scopeLogs.filterMap (fun sl =>
        let kept := sl.logRecords.filter (fun rec => !dropRec rl sl rec)
        if kept.isEmpty then none else some { sl with logRecords := kept })
      if scopes.isEmpty then none else some { rl with scopeLogs := scopes }) := by
  rw [processLogs]
  simp only [List.map_map]
  rw [filter_map_eq_filterMap]
  congr 1
  funext rl
  simp only [Function.comp]
  rw [filter_map_eq_filterMap]
  set scopes := rl.scopeLogs.filterMap (fun sl =>
    if (!(sl.logRecords.filter (fun rec => !dropRec rl sl rec)).isEmpty) = true
    then some { sl with logRecords := sl.logRecords.filter (fun rec => !dropRec rl sl rec) }
    else none) with hscopes
  have hsc : (rl.scopeLogs.filterMap (fun sl =>
      let kept := sl.logRecords.filter (fun rec => !dropRec rl sl rec)
      if kept.isEmpty then none else some { sl with logRecords := kept })) = scopes := by
    rw [hscopes]
    congr 1
    funext sl
    simp only []
    cases hk : (sl.logRecords.filter (fun rec => !dropRec rl sl rec)).isEmpty <;> simp [hk]
  rw [hsc]
  cases hs : scopes.isEmpty <;> simp [hs]

/-- C10: the emitted batch contains no empty containers — every scope left
with no records and every resource left with no scopes is pruned — while a
record the engine keeps survives inside its containers. -/
theorem processLogs_no_empty_containers :
    (∀ (dropRec : ResourceLogs → ScopeLogs → LogRecord → Bool) (data : List ResourceLogs)
        (rl : ResourceLogs), rl ∈ processLogs dropRec data →
          rl.scopeLogs ≠ [] ∧ ∀ sl ∈ rl.scopeLogs, sl.logRecords ≠ []) ∧
    (∀ (dropRec : ResourceLogs → ScopeLogs → LogRecord → Bool) (data : List ResourceLogs)
        (rl : ResourceLogs) (sl : ScopeLogs) (rec : LogRecord),
        rl ∈ data → sl ∈ rl.scopeLogs → rec ∈ sl.logRecords → dropRec rl sl rec = false →
          ∃ rl' ∈ processLogs dropRec data, ∃ sl' ∈ rl'.scopeLogs, rec ∈ sl'.logRecords) := by
  constructor
  · intro dropRec data rl hmem
    rw [processLogs] at hmem
    simp only [List.mem_filter, List.mem_map] at hmem
    obtain ⟨⟨rl0, ⟨rl1, hrl1, hrl0⟩, hmap⟩, hne⟩ := hmem
    subst hmap
    constructor
    · intro hnil
      rw [hnil] at hne
      simp at hne
    · intro sl hsl
      simp only [List.mem_filter] at hsl
      have := hsl.2
      intro hnil
      rw [hnil] at this
      simp at this
  · intro dropRec data rl sl rec hrl hsl hrec hkeep
    rw [processLogs_eq_filterMap]
    have hrecmem : rec ∈ sl.logRecords.filter (fun r => !dropRec rl sl r) := by
      rw [List.mem_filter]
      exact ⟨hrec, by simp [hkeep]⟩
    have hkept_ne : (sl.logRecords.filter (fun r => !dropRec rl sl r)).isEmpty = false := by
      cases hk : (sl.logRecords.filter (fun r => !dropRec rl sl r)).isEmpty
      · rfl
      · rw [List.isEmpty_iff] at hk
        rw [hk] at hrecmem
        cases hrecmem
    set scopes := rl.scopeLogs.filterMap (fun sl' =>
      let kept := sl'.logRecords.filter (fun r => !dropRec rl sl' r)
      if kept.isEmpty then none else some { sl' with logRecords := kept }) with hscopes
    have hslmem : ({ sl with
        logRecords := sl.logRecords.filter (fun r => !dropRec rl sl r) } : ScopeLogs) ∈ scopes := by
      rw [hscopes, List.mem_filterMap]
      refine ⟨sl, hsl, ?_⟩
      simp only [hkept_ne]
      rfl
    have hscne : scopes.isEmpty = false := by
      cases hk : scopes.isEmpty
      · rfl
      · rw [List.isEmpty_iff] at hk
        rw [hk] at hslmem
        cases hslmem
    refine ⟨{ rl with scopeLogs := scopes }, ?_, ?_⟩
    · rw [List.mem_filterMap]
      refine ⟨rl, hrl, ?_⟩
      simp only [hscne]
      rfl
    · exact ⟨_, hslmem, hrecmem⟩

/-- Witness for C10: in the concrete batch, the kept `INFO` record survives
processing inside its containers. -/
theorem processLogs_no_empty_containers_witness :
    ∃ rl' ∈ processLogs exDrop exBatch, ∃ sl' ∈ rl'.scopeLogs, exRecord ∈ sl'.logRecords :=
  processLogs_no_empty_containers.2 exDrop exBatch
    { resource := none
      scopeLogs :=
        [{ scope := none, logRecords := [exRecord, { exRecord with severityText := "DEBUG" }] },
         { scope := none, logRecords := [{ exRecord with severityText := "DEBUG" }] }] }
    { scope := none, logRecords := [exRecord, { exRecord with severityText := "DEBUG" }] }
    exRecord (List.Mem.head _) (List.Mem.head _) (List.Mem.head _) rfl

theorem partsFold_eq (subKey : List Char) :
    ∀ (parts : List (List Char)) (acc : List (List Char)),
      parts.foldl (fun ps partRaw =>
        let part := trimChars partRaw
        if part = [] then ps
        else if keyOfPart part = subKey then ps
        else ps ++ [part]) acc
      = acc ++ (((parts.map trimChars).filter (fun p => !p.isEmpty)).filter
          (fun p => !(keyOfPart p == subKey))) := by
  intro parts
  induction parts with
  | nil => intro acc; simp
  | cons x xs ih =>
    intro acc
    simp only [List.foldl_cons, List.map_cons, List.filter_cons]
    by_cases hx : trimChars x = []
    · simp [hx, ih]
    · by_cases hk : keyOfPart (trimChars x) = subKey
      · simp [hx, hk, ih]
      · simp [hx, hk, ih, List.append_assoc]

theorem mergeStep_fold (subKey : List Char) :
    ∀ (vendors : List (List Char)) (accOt accOther : List (List Char)),
      vendors.foldl (mergeStep subKey) (accOt, accOther) =
        (accOt ++
          (((vendors.map trimChars).filter (fun v => !v.isEmpty)).filter isOtVendor).flatMap
            (fun v => (((splitOnChar ';' (v.drop 3)).map trimChars).filter
                (fun p => !p.isEmpty)).filter (fun p => !(keyOfPart p == subKey))),
         accOther ++
          ((vendors.map trimChars).filter (fun v => !v.isEmpty)).filter
            (fun v => !isOtVendor v)) := by
  intro vendors
  induction vendors with
  | nil => intro accOt accOther; simp
  | cons x xs ih =>
    intro accOt accOther
    simp only [List.foldl_cons, List.map_cons, List.filter_cons]
    by_cases hx : trimChars x = []
    · have hstep : mergeStep subKey (accOt, accOther) x = (accOt, accOther) := by
        rw [mergeStep, if_pos hx]
      rw [hstep, ih]
      simp [hx]
    · by_cases hot : isOtVendor (trimChars x) = true
      · have hstep : mergeStep subKey (accOt, accOther) x =
            (accOt ++ (((splitOnChar ';' ((trimChars x).drop 3)).map trimChars).filter
                (fun p => !p.isEmpty)).filter (fun p => !(keyOfPart p == subKey)),
             accOther) := by
          rw [mergeStep, if_neg hx, if_pos (by simpa [isOtVendor] using hot)]
          simp only []
          rw [partsFold_eq]
        rw [hstep, ih]
        simp [hx, hot, List.append_assoc]
      · have hstep : mergeStep subKey (accOt, accOther) x = (accOt, accOther ++ [trimChars x]) := by
          rw [mergeStep, if_neg hx, if_neg (by simpa [isOtVendor] using hot)]
        rw [hstep, ih]
        simp [hx, hot, List.append_assoc]

/-- C2: for every input tracestate and every threshold value, the merged
tracestate is the `ot=` vendor first, carrying the original `ot` sub-keys
with the `th` sub-key removed followed by the new `th:<value>` sub-key, with
all non-`ot` vendor entries following verbatim in their original order. -/
theorem mergeOTTracestate_shape :
    ∀ (ts v : List Char),
      mergeOTTracestate ts (thMark ++ v) =
        otMark ++ joinWith ';'
          ((otSubParts ts).filter (fun p => !(keyOfPart p == ['t', 'h'])) ++ [thMark ++ v]) ++
        (if nonOtVendors ts = [] then [] else [','] ++ joinWith ',' (nonOtVendors ts)) := by
  intro ts v
  have hkey : keyOfPart (thMark ++ v) = ['t', 'h'] := rfl
  rw [mergeOTTracestate, hkey]
  by_cases hts : ts = []
  · subst hts
    rw [if_pos rfl]
    have h1 : otSubParts [] = [] := rfl
    have h2 : nonOtVendors [] = [] := rfl
    rw [h1, h2]
    simp
  · rw [if_neg hts, mergeStep_fold]
    simp only [List.nil_append]
    rw [← List.filter_flatMap]
    have hsub : ((((splitOnChar ',' ts).map trimChars).filter (fun v => !v.isEmpty)).filter
        isOtVendor).flatMap
          (fun v => ((splitOnChar ';' (v.drop 3)).map trimChars).filter (fun p => !p.isEmpty)) =
        otSubParts ts := rfl
    have hnon : ((((splitOnChar ',' ts).map trimChars).filter (fun v => !v.isEmpty)).filter
        (fun v => !isOtVendor v)) = nonOtVendors ts := rfl
    rw [hsub, hnon]
    by_cases hn : nonOtVendors ts = []
    · rw [if_pos hn, if_pos hn]
      simp
    · rw [if_neg hn, if_neg hn]
      simp [List.append_assoc]

theorem shiftLeft_or_byte (a b : Nat) (hb : b < 2 ^ 8) : (a <<< 8) ||| b = a * 2 ^ 8 + b := by
  rw [Nat.shiftLeft_eq, mul_comm a (2 ^ 8)]
  apply Nat.eq_of_testBit_eq
  intro i
  rw [Nat.testBit_or, Nat.testBit_mul_pow_two_add a hb i, Nat.testBit_mul_pow_two]
  by_cases hi : i < 8
  · rw [if_pos hi]
    have hnge : ¬ (i ≥ 8) := by omega
    simp [hnge]
  · rw [if_neg hi]
    have hge : i ≥ 8 := by omega
    have hbf : b.testBit i = false := by
      apply Nat.testBit_lt_two_pow
      calc b < 2 ^ 8 := hb
        _ ≤ 2 ^ i := Nat.pow_le_pow_right (by norm_num) hge
    simp [hge, hbf]

theorem foldOr_eq_foldAdd :
    ∀ (l : List Nat), (∀ b ∈ l, b < 256) →
      ∀ acc : Nat, (acc + 1) * 2 ^ (8 * l.length) ≤ 2 ^ 64 →
        l.foldl (fun r b => ((r <<< 8) ||| b) % 2 ^ 64) acc =
          l.foldl (fun r b => r * 256 + b) acc := by
  intro l
  induction l with
  | nil => intro _ acc _; rfl
  | cons b rest ih =>
    intro hb acc hacc
    have hb256 : b < 256 := hb b (List.Mem.head _)
    have hpow : (2 : Nat) ^ (8 * (rest.length + 1)) = 2 ^ (8 * rest.length) * 2 ^ 8 := by
      rw [show 8 * (rest.length + 1) = 8 * rest.length + 8 by omega, pow_add]
    have hacc8 : (acc + 1) * 2 ^ 8 ≤ 2 ^ 64 := by
      calc (acc + 1) * 2 ^ 8 ≤ (acc + 1) * 2 ^ (8 * (rest.length + 1)) := by
            apply Nat.mul_le_mul_left
            apply Nat.pow_le_pow_right (by norm_num)
            omega
        _ ≤ 2 ^ 64 := by simpa using hacc
    have hstep : ((acc <<< 8) ||| b) % 2 ^ 64 = acc * 256 + b := by
      rw [shiftLeft_or_byte acc b (by norm_num [hb256])]
      apply Nat.mod_eq_of_lt
      have h1 : acc * 2 ^ 8 + b < (acc + 1) * 2 ^ 8 := by
        have : (2 : Nat) ^ 8 = 256 := by norm_num
        rw [this]
        omega
      omega
    simp only [List.foldl_cons, hstep]
    apply ih
    · intro x hx
      exact hb x (List.Mem.tail _ hx)
    · have h2 : acc * 256 + b + 1 ≤ (acc + 1) * 256 := by omega
      calc (acc * 256 + b + 1) * 2 ^ (8 * rest.length)
            ≤ (acc + 1) * 256 * 2 ^ (8 * rest.length) := Nat.mul_le_mul_right _ h2
        _ = (acc + 1) * 2 ^ (8 * (rest.length + 1)) := by
            rw [hpow]
            ring
        _ ≤ 2 ^ 64 := by simpa using hacc

/-- C6 counterexample: at percentage 33 and the concrete trace ID whose low
7 bytes encode 48278588005411712, the code keeps the span although
`R ≥ (1 - percentage/100)·2^56` is false — the float64 threshold the code
computes (48278588005411712) lies below the exact product (≈ …717.12). -/
theorem sampling_exact_threshold_counterexample :
    otelShouldKeep cexTraceID 33 = true ∧
    ¬ ((1 - (33 : ℚ) / 100) * 2 ^ 56 ≤ (otelR cexTraceID : ℚ)) := by
  constructor
  · decide
  · have h : otelR cexTraceID = 48278588005411712 := by decide
    rw [h]
    norm_num

/-- C6 amended: the proportional decision keeps every span at
`percentage ≥ 100` and none at `percentage ≤ 0`; in between it keeps iff
`R ≥ T'` where `R` is the big-endian integer of trace-ID bytes 9..15 and
`T'` is the float64 evaluation of `(1 - percentage/100)·2^56` truncated to
an integer (which can differ from the exact product by a few units). -/
theorem otelShouldKeep_float_threshold :
    ∀ (id : List Nat) (p : ℚ),
      (100 ≤ p → otelShouldKeep id p = true) ∧
      (p ≤ 0 → otelShouldKeep id p = false) ∧
      ((∀ b ∈ id, b < 256) → ¬ 100 ≤ p → ¬ p ≤ 0 →
        (otelShouldKeep id p = true ↔ goThresholdFrac p.num.toNat p.den ≤ otelR id)) := by
  intro id p
  refine ⟨?_, ?_, ?_⟩
  · intro h
    rw [otelShouldKeep, if_pos h]
  · intro h
    have h100 : ¬ (100 : ℚ) ≤ p := by
      intro hc
      linarith
    rw [otelShouldKeep, if_neg h100, if_pos h]
  · intro hbytes h100 h0
    rw [otelShouldKeep, if_neg h100, if_neg h0]
    have hfold : ((id.drop 9).take 7).foldl (fun r b => ((r <<< 8) ||| b) % 2 ^ 64) 0 =
        otelR id := by
      rw [otelR]
      apply foldOr_eq_foldAdd
      · intro b hbm
        exact hbytes b (List.mem_of_mem_drop (List.mem_of_mem_take hbm))
      · have hlen : ((id.drop 9).take 7).length ≤ 7 := by
          rw [List.length_take]
          omega
        calc (0 + 1) * 2 ^ (8 * ((id.drop 9).take 7).length)
              = 2 ^ (8 * ((id.drop 9).take 7).length) := by ring
          _ ≤ 2 ^ 64 := Nat.pow_le_pow_right (by norm_num) (by omega)
    simp only [hfold]
    simp

/-- Witness for C6's amended characterization at percentage 50 and the
concrete trace ID. -/
theorem otelShouldKeep_float_threshold_witness :
    otelShouldKeep cexTraceID 50 = true ↔
      goThresholdFrac (50 : ℚ).num.toNat (50 : ℚ).den ≤ otelR cexTraceID :=
  (otelShouldKeep_float_threshold cexTraceID 50).2.2 (by decide) (by decide) (by decide)

end PolicyConformance
